import Mathlib

/-!
Verification development for the `sume` corpus loader (`sume/base.py`):
the detokenizer `LoadFile._untokenize`, the document reader
`LoadFile.read_documents`, and the pruning filter `LoadFile.prune_sentences`.

Strings are modelled as `List Char` (a Lean `String` is a wrapper around
`List Char`).  Each Python `re.sub`/`str.replace` pass is modelled as a
left-to-right scanner that, at every position, either fires an anchored
matcher (consuming the matched span, emitting the replacement, and
continuing after the span — Python's leftmost non-overlapping semantics)
or moves one character forward.  File-system access (`glob`, `codecs.open`)
is outside the embedding; the per-file line-processing loop of
`read_documents` is modelled on the list of lines of one file.
-/

/-- Python whitespace (the set matched by `\s` on unicode strings and
stripped by `str.strip()`): ASCII whitespace, the C1 separators, and the
unicode space characters. -/
def isPySpace (c : Char) : Bool :=
  c = ' ' || c = '\t' || c = '\n' || c = '\r' || c.toNat = 11 || c.toNat = 12 ||
  c.toNat = 0x1c || c.toNat = 0x1d || c.toNat = 0x1e || c.toNat = 0x1f ||
  c.toNat = 0x85 || c.toNat = 0xa0 || c.toNat = 0x1680 ||
  (0x2000 ≤ c.toNat && c.toNat ≤ 0x200a) ||
  c.toNat = 0x2028 || c.toNat = 0x2029 || c.toNat = 0x202f ||
  c.toNat = 0x205f || c.toNat = 0x3000

/-- The apostrophe character. -/
def apos : Char := Char.ofNat 39

/-- The straight double-quote character. -/
def dqc : Char := Char.ofNat 34

/-- The backtick character. -/
def bqc : Char := Char.ofNat 96

/-- One step of `re.sub(u"\s+", u" ", ·)`: each maximal run of whitespace
becomes a single space.  The flag records whether the scanner is inside a
whitespace run whose single replacement space has already been emitted. -/
def collapseGo : Bool → List Char → List Char
  | _, [] => []
  | inRun, c :: rest =>
    if isPySpace c then
      if inRun then collapseGo true rest else ' ' :: collapseGo true rest
    else c :: collapseGo false rest

/-- Model of `re.sub(u"\s+", u" ", text)`. -/
def collapseWs (l : List Char) : List Char := collapseGo false l

/-- Python `str.strip()`: drop leading and trailing whitespace. -/
def pyStrip (l : List Char) : List Char :=
  ((l.dropWhile isPySpace).reverse.dropWhile isPySpace).reverse

/-- Model of `re.sub(u"\s+", u" ", text.strip())`: strip, then collapse. -/
def stripCollapse (l : List Char) : List Char := collapseWs (pyStrip l)

/-- Model of the space join `u' '.join(tokens)`. -/
def joinSpace : List (List Char) → List Char
  | [] => []
  | [t] => t
  | t :: rest => t ++ ' ' :: joinSpace rest

/-- Generic model of Python's `re.sub`/`str.replace` scan for a pattern that
always consumes at least one character: at each position try the anchored
matcher `M`; on success emit the replacement and continue after the matched
span, otherwise emit one character and advance.  The fuel (instantiated with
the length of the string) only establishes termination: every step consumes
at least one character, so fuel `l.length` never runs out. -/
def scan (M : List Char → Option (List Char × List Char)) :
    Nat → List Char → List Char
  | _, [] => []
  | 0, l => l
  | fuel + 1, c :: rest =>
    match M (c :: rest) with
    | some (out, rem) => out ++ scan M fuel rem
    | none => c :: scan M fuel rest

/-- Run a single-substitution pass over the whole string. -/
def reSub (M : List Char → Option (List Char × List Char)) (l : List Char) :
    List Char :=
  scan M l.length l

/-- Lowercase ASCII letter, the class `[a-z]`. -/
def isLowerAZ (c : Char) : Bool := 'a' ≤ c && c ≤ 'z'

/-- Matcher for `re.sub(u" ('[a-z]) ", u"\g<1> ", text)`: a space, an
apostrophe, one lowercase letter, a space; the leading space is deleted. -/
def mContr : List Char → Option (List Char × List Char)
  | ' ' :: q :: c :: ' ' :: rest =>
    if q = apos && isLowerAZ c then some ([apos, c, ' '], rest) else none
  | _ => none

/-- The character class `[\.;,-]` (four literal characters; the `-` before
`]` is literal). -/
def inMidPunct (c : Char) : Bool := c = '.' || c = ';' || c = ',' || c = '-'

/-- Matcher for `re.sub(u" ([\.;,-]) ", u"\g<1> ", text)`. -/
def mMidPunct : List Char → Option (List Char × List Char)
  | ' ' :: c :: ' ' :: rest =>
    if inMidPunct c then some ([c, ' '], rest) else none
  | _ => none

/-- The character class `[\.;,-?!]`: the literals `.` and `;`, the range
`,`–`?` (codes 0x2C to 0x3F, which contains the digits, `:`, `<`, `=`, `>`),
and the literal `!`. -/
def inEndPunct (c : Char) : Bool :=
  c = '.' || c = ';' || (',' ≤ c && c ≤ '?') || c = '!'

/-- Model of `re.sub(u" ([\.;,-?!])$", u"\g<1>", text)`: anchored at the end of the
string, so there is at most one match site (no newline can be present at
this point of the pipeline, every whitespace run was already collapsed to a
single space). -/
def subEndPunct (l : List Char) : List Char :=
  match l.reverse with
  | c :: ' ' :: rest => if inEndPunct c then (c :: rest).reverse else l
  | _ => l

/-- Split a string at the LAST occurrence of the three-character pattern
`space underscore space` (the closing delimiter a greedy `.+` backtracks
to), returning the parts before and after it. -/
def splitLastUnd : List Char → Option (List Char × List Char)
  | [] => none
  | c :: rest =>
    match splitLastUnd rest with
    | some (b, a) => some (c :: b, a)
    | none =>
      if c = ' ' then
        match rest with
        | u :: ' ' :: a => if u = '_' then some ([], a) else none
        | _ => none
      else none

/-- Matcher for `re.sub(u" _ (.+) _ ", u" _\g<1>_ ", text)`: the greedy
`.+` makes the closing ` _ ` the last such occurrence, with a non-empty
group in between. -/
def mUnder : List Char → Option (List Char × List Char)
  | ' ' :: u :: ' ' :: rest =>
    if u = '_' then
      match splitLastUnd rest with
      | some (b, a) =>
        if b.isEmpty then none else some (' ' :: '_' :: (b ++ ['_', ' ']), a)
      | none => none
    else none
  | _ => none

/-- The character class `[\d\.]`. -/
def isDigitDot (c : Char) : Bool := c.isDigit || c = '.'

/-- Matcher for `re.sub(u" \$ ([\d\.]+) ", u" $\g<1> ", text)`: the match
needs a space before the `$` and a space after the number, so the rule
cannot fire at the start or end of the string. -/
def mDollar : List Char → Option (List Char × List Char)
  | ' ' :: d :: ' ' :: rest =>
    if d = '$' then
      let run := rest.takeWhile isDigitDot
      if run.isEmpty then none
      else
        match rest.dropWhile isDigitDot with
        | ' ' :: after => some (' ' :: '$' :: (run ++ [' ']), after)
        | _ => none
    else none
  | _ => none

/-- Matcher for `text.replace(u" ' ", u"' ")`. -/
def mAposSpace : List Char → Option (List Char × List Char)
  | ' ' :: q :: ' ' :: rest =>
    if q = apos then some ([apos, ' '], rest) else none
  | _ => none

/-- Python word character `\w` (ASCII approximation: letters, digits,
underscore; unicode letters beyond ASCII are not modelled). -/
def isWordChar (c : Char) : Bool := c.isAlpha || c.isDigit || c = '_'

/-- The character class `[\W\s]`. -/
def inNonWord (c : Char) : Bool := !(isWordChar c) || isPySpace c

/-- Matcher for `re.sub(u"([\W\s])\( ", u"\g<1>(", text)`. -/
def mOpenParen : List Char → Option (List Char × List Char)
  | a :: '(' :: ' ' :: rest =>
    if inNonWord a then some ([a, '('], rest) else none
  | _ => none

/-- Matcher for `re.sub(u" \)([\W\s])", u")\g<1>", text)`. -/
def mCloseParen : List Char → Option (List Char × List Char)
  | ' ' :: ')' :: a :: rest =>
    if inNonWord a then some ([')', a], rest) else none
  | _ => none

/-- Matcher for `text.replace(u"\x60\x60 ", u"\x60\x60")` (double backtick
followed by a space loses the space). -/
def mOpenTicks : List Char → Option (List Char × List Char)
  | a :: b :: ' ' :: rest =>
    if a = bqc && b = bqc then some ([bqc, bqc], rest) else none
  | _ => none

/-- Matcher for `text.replace(u" ''", u"''")` (space before a double
apostrophe is deleted). -/
def mCloseTicks : List Char → Option (List Char × List Char)
  | ' ' :: a :: b :: rest =>
    if a = apos && b = apos then some ([apos, apos], rest) else none
  | _ => none

/-- Matcher for `text.replace(u" n't", u"n't")`. -/
def mNt : List Char → Option (List Char × List Char)
  | ' ' :: n :: q :: t :: rest =>
    if n = 'n' && q = apos && t = 't' then some (['n', apos, 't'], rest)
    else none
  | _ => none

/-- Core of the pattern `'(^| )" ([^"]+) "( |$)'` anchored right at the
opening double quote: `"` space, a non-empty greedy run of non-quote
characters ending in a space, `"`, then a space (consumed) or end of
string.  Returns the replacement for the part after group 1 together with
the remainder. -/
def mDqCore : List Char → Option (List Char × List Char)
  | a :: ' ' :: rest =>
    if a = dqc then
      let gs := rest.takeWhile (· != dqc)
      match rest.dropWhile (· != dqc) with
      | _ :: rem2 =>
        match gs.reverse with
        | sp :: grev =>
          if sp = ' ' && !grev.isEmpty then
            match rem2 with
            | ' ' :: after => some (dqc :: (grev.reverse ++ [dqc, ' ']), after)
            | [] => some (dqc :: (grev.reverse ++ [dqc]), [])
            | _ => none
          else none
        | [] => none
      | [] => none
    else none
  | _ => none

/-- The `( )`-alternative of group 1 of the quote-pair pattern: a space,
then the core. -/
def mDqSpace : List Char → Option (List Char × List Char)
  | ' ' :: rest =>
    match mDqCore rest with
    | some (out, rem) => some (' ' :: out, rem)
    | none => none
  | _ => none

/-- Model of `re.sub(u'(^| )" ([^"]+) "( |$)', u'\g<1>"\g<2>"\g<3>', text)`: the
`^`-alternative of group 1 can only fire at position 0; afterwards only the
space-prefixed alternative can match. -/
def subDqPair (l : List Char) : List Char :=
  match mDqCore l with
  | some (out, rem) => out ++ reSub mDqSpace rem
  | none => reSub mDqSpace l

/-- The character class `[ap]`. -/
def isApChar (c : Char) : Bool := c = 'a' || c = 'p'

/-- Matcher for `re.sub('(\d+) : (\d+ [ap]\.m\.)', '\g<1>:\g<2>', text)`.
The greedy `\d+` groups are the maximal digit runs (a shorter run would
leave a digit where the pattern requires a space). -/
def mTime : List Char → Option (List Char × List Char) := fun l =>
  let r1 := l.takeWhile Char.isDigit
  if r1.isEmpty then none
  else
    match l.dropWhile Char.isDigit with
    | ' ' :: ':' :: ' ' :: rest2 =>
      let r2 := rest2.takeWhile Char.isDigit
      if r2.isEmpty then none
      else
        match rest2.dropWhile Char.isDigit with
        | ' ' :: c :: '.' :: m :: '.' :: after =>
          if isApChar c && m = 'm' then
            some (r1 ++ ':' :: (r2 ++ [' ', c, '.', 'm', '.']), after)
          else none
        | _ => none
    | _ => none

/-- Model of `re.sub('^" ', '"', text)`: anchored at the start. -/
def subStartDq (l : List Char) : List Char :=
  match l with
  | a :: ' ' :: rest => if a = dqc then dqc :: rest else l
  | _ => l

/-- Model of `re.sub(' "$', '"', text)`: anchored at the end (no newline can be
present, see `subEndPunct`). -/
def subEndDq (l : List Char) : List Char :=
  match l.reverse with
  | a :: ' ' :: rest => if a = dqc then (dqc :: rest).reverse else l
  | _ => l

/-- Model of `LoadFile._untokenize` on character lists: the ordered sequence of
rewrite passes of the source, applied to the space-join of the tokens. -/
def untokenizeChars (tokens : List (List Char)) : List Char :=
  let t0 := joinSpace tokens
  let t1 := stripCollapse t0
  let t2 := reSub mContr t1
  let t3 := reSub mMidPunct t2
  let t4 := subEndPunct t3
  let t5 := reSub mUnder t4
  let t6 := reSub mDollar t5
  let t7 := reSub mAposSpace t6
  let t8 := reSub mOpenParen t7
  let t9 := reSub mCloseParen t8
  let t10 := reSub mOpenTicks t9
  let t11 := reSub mCloseTicks t10
  let t12 := reSub mNt t11
  let t13 := subDqPair t12
  let t14 := reSub mTime t13
  let t15 := subStartDq t14
  let t16 := subEndDq t15
  stripCollapse t16

/-- Model of `LoadFile._untokenize(tokens)`. -/
def untokenize (tokens : List String) : String :=
  String.mk (untokenizeChars (tokens.map String.data))

/-- The `Sentence` data structure of `sume/base.py`.  `untokenized_form`
and `length` are the values assigned by `read_documents` right after
construction (the constructor itself initialises them to `''` and `0`). -/
structure Sentence where
  tokens : List String
  doc_id : String
  position : Nat
  concepts : List String
  untokenized_form : String
  length : Nat
deriving Repr, DecidableEq

/-- Python `str.strip()` on `String`. -/
def pyStripS (s : String) : String := String.mk (pyStrip s.data)

/-- Python `str.split(' ')` (split on every single space; consecutive
separators and boundary separators produce empty fields; on the empty
string the result is `[""]`, a one-element list). -/
def splitSpace : List Char → List (List Char)
  | [] => [[]]
  | c :: rest =>
    if c = ' ' then [] :: splitSpace rest
    else
      match splitSpace rest with
      | t :: ts => (c :: t) :: ts
      | [] => [[c]]

/-- Python `str.split(' ')` on `String`. -/
def splitSpaceS (s : String) : List String := (splitSpace s.data).map String.mk

/-- The line-processing loop of `LoadFile.read_documents` for one input
file, given the file's identifier and its list of lines (`glob` and file
I/O are outside the embedding): each line is stripped and split on single
spaces, and when the token list is non-empty a `Sentence` is constructed,
its `untokenized_form` is computed by the detokenizer and its `length` is
the number of single-space fields of that form. -/
def readLines (doc_id : String) : Nat → List String → List Sentence
  | _, [] => []
  | i, line :: rest =>
    let tokens := splitSpaceS (pyStripS line)
    if tokens.length > 0 then
      let u := untokenize tokens
      ⟨tokens, doc_id, i, [], u, (splitSpaceS u).length⟩
        :: readLines doc_id (i + 1) rest
    else readLines doc_id (i + 1) rest

/-- Model of `LoadFile.read_documents` restricted to a single already-read file. -/
def read_documents (doc_id : String) (lines : List String) : List Sentence :=
  readLines doc_id 0 lines

/-- The string `` `` `` (two backticks). -/
def openTicksS : String := String.mk [bqc, bqc]

/-- The string `''` (two apostrophes). -/
def closeTicksS : String := String.mk [apos, apos]

/-- The one-character string `"`. -/
def dqS : String := String.mk [dqc]

/-- The loop of `LoadFile.prune_sentences` with its accumulator
`pruned_sentences`.  Reading `sentence.tokens[0]` / `sentence.tokens[-1]`
on an empty token list raises `IndexError` in Python, modelled as `none`.
The inner redundancy loop (first-match-then-break) is `List.any` over the
accumulator.  The citation condition reproduces the source verbatim,
including its second test of `first_token` where the structure suggests
`last_token`. -/
def pruneLoop (minL maxL : Nat) (rc rr : Bool) :
    List Sentence → List Sentence → Option (List Sentence)
  | pruned, [] => some pruned
  | pruned, s :: rest =>
    if s.length < minL then pruneLoop minL maxL rc rr pruned rest
    else if s.length > maxL then pruneLoop minL maxL rc rr pruned rest
    else
      match s.tokens.head?, s.tokens.getLast? with
      | some first_token, some last_token =>
        if rc && (first_token == openTicksS || first_token == dqS)
              && (last_token == closeTicksS || first_token == dqS) then
          pruneLoop minL maxL rc rr pruned rest
        else if rr && pruned.any (fun p => p.tokens == s.tokens) then
          pruneLoop minL maxL rc rr pruned rest
        else pruneLoop minL maxL rc rr (pruned ++ [s]) rest
      | _, _ => none

/-- Model of `LoadFile.prune_sentences(mininum_sentence_length,
maximum_sentence_length, remove_citations, remove_redundancy)`, returning
the new value of `self.sentences` (or `none` for an `IndexError`). -/
def prune_sentences (sentences : List Sentence) (minL maxL : Nat)
    (rc rr : Bool) : Option (List Sentence) :=
  pruneLoop minL maxL rc rr [] sentences

/-- Whether a string contains two consecutive space characters. -/
def hasDoubleSpace : List Char → Bool
  | a :: b :: rest => (a = ' ' && b = ' ') || hasDoubleSpace (b :: rest)
  | _ => false

/-- Sentence of length 2 for the pruning examples. -/
def sLen2 : Sentence := ⟨["w"], "d1", 0, [], "", 2⟩

/-- Sentence of length 10 for the pruning examples. -/
def sLen10 : Sentence := ⟨["w"], "d1", 1, [], "", 10⟩

/-- Sentence of length 40 for the pruning examples. -/
def sLen40 : Sentence := ⟨["w"], "d1", 2, [], "", 40⟩

/-- First of two sentences with identical token sequences. -/
def sDupA : Sentence := ⟨["a", "b", "c", "d", "e"], "d1", 0, [], "", 5⟩

/-- Second of two sentences with the same tokens as `sDupA` but different
`doc_id` and `position`. -/
def sDupB : Sentence := ⟨["a", "b", "c", "d", "e"], "d2", 3, [], "", 5⟩

/-- A sentence with an empty token list (its length passes the bounds). -/
def sNoTokens : Sentence := ⟨[], "d1", 0, [], "", 5⟩

/-- A sentence whose first token is a straight double quote but whose last
token is an ordinary word. -/
def sQuoteOpen : Sentence := ⟨[dqS, "hello", "world"], "d1", 0, [], "", 10⟩

/-- C1: evaluation of `prune_sentences` at the failing input.  The sentence
`sQuoteOpen` has first token `"` and last token `world`; `world` is neither
`''` nor `"`, so by the claim the citation check should retain it, yet the
code drops it: the citation condition's last disjunct tests `first_token`
(a slip for `last_token`), so any sentence whose first token is `"` is
dropped regardless of its last token. -/
theorem prune_citation_first_token_bug :
    sQuoteOpen.tokens.head? = some dqS ∧
    sQuoteOpen.tokens.getLast? = some "world" ∧
    "world" ≠ closeTicksS ∧ "world" ≠ dqS ∧
    prune_sentences [sQuoteOpen] 5 30 true true = some [] := by
  refine ⟨rfl, rfl, by decide, by decide, rfl⟩

/-- C2: evaluation of `read_documents` at the failing input.  A line that
is empty after stripping is NOT skipped: Python's `''.split(' ')` is
`['']`, a one-element list, so the `len(tokens) > 0` guard is always true
and the empty line yields a `Sentence` with the single empty token (and
length 1), contradicting the claim that such lines are silently excluded. -/
theorem read_documents_keeps_empty_line :
    read_documents "doc" [""] = [⟨[""], "doc", 0, [], "", 1⟩] := rfl

/-- C3 (counterexample): on the tokens `$ 12.50 was paid` the detokenizer
does NOT return `$12.50 was paid`: the currency pattern requires a space
before the `$`, which is absent at the start of the string. -/
theorem untokenize_currency_start_cex :
    untokenize ["$", "12.50", "was", "paid"] ≠ "$12.50 was paid" := by decide

/-- C3 (amended): on the tokens `$ 12.50 was paid` the detokenizer returns
`$ 12.50 was paid` unchanged (the currency fusion cannot fire at the start
of the sentence); the fusion does fire mid-sentence, where both flanking
spaces exist. -/
theorem untokenize_currency_amended :
    untokenize ["$", "12.50", "was", "paid"] = "$ 12.50 was paid" ∧
    untokenize ["pay", "$", "12.50", "now"] = "pay $12.50 now" :=
  ⟨rfl, rfl⟩

/-- C6: the sentence-final fusion rule of the detokenizer fires for every
single final character in the ASCII range `,` (0x2C) to `?` (0x3F) — the
class `[\.;,-?!]` contains the range `,-?`, hence all digits, `:`, `;`,
`<`, `=`, `>` — not only for the six punctuation marks; in particular
`pay me 5` detokenizes to `pay me5`. -/
theorem endPunct_range_fusion (l : List Char) (c : Char)
    (h1 : ',' ≤ c) (h2 : c ≤ '?') :
    subEndPunct (l ++ [' ', c]) = l ++ [c] ∧
    untokenize ["pay", "me", "5"] = "pay me5" := by
  refine ⟨?_, rfl⟩
  have hc : inEndPunct c = true := by
    simp [inEndPunct, h1, h2]
  simp [subEndPunct, List.reverse_append, hc]

/-- C6 witness: the general rule applied to the concrete final token `5`. -/
theorem endPunct_range_fusion_witness :
    (',' ≤ '5' ∧ '5' ≤ '?') ∧
    (subEndPunct ("pay me".data ++ [' ', '5']) = "pay me".data ++ ['5'] ∧
     untokenize ["pay", "me", "5"] = "pay me5") :=
  ⟨⟨by decide, by decide⟩,
   endPunct_range_fusion "pay me".data '5' (by decide) (by decide)⟩

/-- C10: the detokenizer is a deterministic pure function: it is a plain
function of the token list, and any two token sequences that are
element-wise equal (same length, same entry at every index) detokenize to
the identical string. -/
theorem untokenize_deterministic (T1 T2 : List String)
    (_hlen : T1.length = T2.length) (helt : ∀ i, T1.get? i = T2.get? i) :
    untokenize T1 = untokenize T2 := by
  have h : T1 = T2 := List.ext_get?_iff.mpr helt
  rw [h]

/-- C10 witness: determinism at a concrete token sequence. -/
theorem untokenize_deterministic_witness :
    untokenize ["a", "b"] = untokenize ["a", "b"] :=
  untokenize_deterministic ["a", "b"] ["a", "b"] rfl (fun _ => rfl)

/-- In skip mode (inside a whitespace run) the first emitted character of
the collapse pass is not whitespace. -/
theorem collapseGo_true_head (l : List Char) :
    ∀ x, (collapseGo true l).head? = some x → isPySpace x = false := by
  induction l with
  | nil => intro x h; simp [collapseGo] at h
  | cons c rest ih =>
    intro x h
    by_cases hc : isPySpace c = true
    · rw [collapseGo, if_pos hc] at h
      exact ih x (by simpa using h)
    · rw [collapseGo, if_neg hc] at h
      obtain rfl : c = x := by simpa using h
      simpa using hc

/-- The collapse pass never emits two consecutive spaces. -/
theorem collapseGo_noDouble (l : List Char) :
    ∀ b, hasDoubleSpace (collapseGo b l) = false := by
  induction l with
  | nil => intro b; simp [collapseGo, hasDoubleSpace]
  | cons c rest ih =>
    intro b
    by_cases hc : isPySpace c = true
    · cases b
      · rw [collapseGo, if_pos hc]
        simp only [Bool.false_eq_true, if_false]
        cases hcg : collapseGo true rest with
        | nil => simp [hasDoubleSpace]
        | cons y ys =>
          have hy : isPySpace y = false :=
            collapseGo_true_head rest y (by rw [hcg]; rfl)
          have hy' : y ≠ ' ' := by
            intro he; rw [he] at hy; exact absurd hy (by decide)
          rw [hasDoubleSpace]
          simp only [Bool.or_eq_false_iff, Bool.and_eq_false_iff]
          exact ⟨Or.inr (by simpa using hy'), by rw [← hcg]; exact ih true⟩
      · rw [collapseGo, if_pos hc]
        simpa using ih true
    · rw [collapseGo, if_neg hc]
      have hc' : c ≠ ' ' := by
        intro he; rw [he] at hc; exact hc (by decide)
      cases hcg : collapseGo false rest with
      | nil => simp [hasDoubleSpace]
      | cons y ys =>
        rw [hasDoubleSpace]
        simp only [Bool.or_eq_false_iff, Bool.and_eq_false_iff]
        exact ⟨Or.inl (by simpa using hc'), by rw [← hcg]; exact ih false⟩

/-- If the collapse pass returns the empty string, the input was all
whitespace. -/
theorem collapseGo_nil (l : List Char) :
    ∀ b, collapseGo b l = [] → ∀ c ∈ l, isPySpace c = true := by
  induction l with
  | nil => intro b _ c hc; simp at hc
  | cons c rest ih =>
    intro b h x hx
    by_cases hc : isPySpace c = true
    · cases b
      · rw [collapseGo, if_pos hc] at h
        simp at h
      · rw [collapseGo, if_pos hc] at h
        simp only [if_pos rfl] at h
        rcases List.mem_cons.mp hx with rfl | hx'
        · exact hc
        · exact ih true h x hx'
    · rw [collapseGo, if_neg hc] at h
      simp at h

/-- In emit mode the collapse pass of a non-empty string is non-empty. -/
theorem collapseGo_false_ne_nil (l : List Char) (h : l ≠ []) :
    collapseGo false l ≠ [] := by
  cases l with
  | nil => exact absurd rfl h
  | cons c rest =>
    rw [collapseGo]
    by_cases hc : isPySpace c = true
    · rw [if_pos hc]; simp
    · rw [if_neg hc]; simp

/-- Dropping the head of a list with a non-empty tail does not change its
last element. -/
theorem getLast?_cons_ne (a : Char) (l : List Char) (h : l ≠ []) :
    (a :: l).getLast? = l.getLast? := by
  cases l with
  | nil => exact absurd rfl h
  | cons b bs => exact List.getLast?_cons_cons

/-- If the input's last character is not whitespace, neither is the
output's last character after the collapse pass. -/
theorem collapseGo_last (l : List Char) :
    ∀ b, (∀ x, l.getLast? = some x → isPySpace x = false) →
      ∀ y, (collapseGo b l).getLast? = some y → isPySpace y = false := by
  induction l with
  | nil => intro b _ y h; simp [collapseGo] at h
  | cons c rest ih =>
    intro b hl y h
    by_cases hre : rest = []
    · subst hre
      have hc : isPySpace c = false := hl c (by simp)
      rw [collapseGo, if_neg (by simp [hc])] at h
      obtain rfl : c = y := by simpa [collapseGo] using h
      exact hc
    · have hrl : ∀ x, rest.getLast? = some x → isPySpace x = false := by
        intro x hx
        exact hl x (by rw [getLast?_cons_ne c rest hre]; exact hx)
      by_cases hc : isPySpace c = true
      · cases b
        · rw [collapseGo, if_pos hc] at h
          simp only [Bool.false_eq_true, if_false] at h
          have hne2 : collapseGo true rest ≠ [] := by
            intro h0
            obtain ⟨x, hx⟩ := Option.isSome_iff_exists.mp
              (List.getLast?_isSome.mpr hre)
            have hmem : x ∈ rest := List.mem_of_getLast?_eq_some hx
            have : isPySpace x = true := collapseGo_nil rest true h0 x hmem
            rw [hrl x hx] at this
            exact Bool.false_ne_true this
          rw [getLast?_cons_ne ' ' _ hne2] at h
          exact ih true hrl y h
        · rw [collapseGo, if_pos hc] at h
          simp only [if_pos rfl] at h
          exact ih true hrl y h
      · rw [collapseGo, if_neg hc] at h
        have hne2 : collapseGo false rest ≠ [] := collapseGo_false_ne_nil rest hre
        rw [getLast?_cons_ne c _ hne2] at h
        exact ih false hrl y h

/-- The head of `dropWhile p` does not satisfy `p`. -/
theorem dropWhile_head_not (p : Char → Bool) (l : List Char) :
    ∀ x, (l.dropWhile p).head? = some x → p x = false := by
  intro x h
  have hw := List.head?_dropWhile_not p l
  rw [h] at hw
  exact hw

/-- A non-empty suffix has the same last element as the whole list. -/
theorem suffix_getLast? {l₁ l₂ : List Char} (h : l₁ <:+ l₂) (hne : l₁ ≠ []) :
    l₂.getLast? = l₁.getLast? := by
  obtain ⟨pre, rfl⟩ := h
  obtain ⟨x, hx⟩ := Option.isSome_iff_exists.mp (List.getLast?_isSome.mpr hne)
  rw [List.getLast?_append, hx]
  rfl

/-- The first character of a stripped string is not whitespace. -/
theorem pyStrip_head (l : List Char) :
    ∀ x, (pyStrip l).head? = some x → isPySpace x = false := by
  intro x h
  rw [pyStrip, List.head?_reverse] at h
  have hne : (l.dropWhile isPySpace).reverse.dropWhile isPySpace ≠ [] := by
    intro h0; rw [h0] at h; simp at h
  have hsuf := List.dropWhile_suffix (l := (l.dropWhile isPySpace).reverse)
    (p := isPySpace)
  rw [← suffix_getLast? hsuf hne, List.getLast?_reverse] at h
  exact dropWhile_head_not _ _ x h

/-- The last character of a stripped string is not whitespace. -/
theorem pyStrip_last (l : List Char) :
    ∀ x, (pyStrip l).getLast? = some x → isPySpace x = false := by
  intro x h
  rw [pyStrip, List.getLast?_reverse] at h
  exact dropWhile_head_not _ _ x h

/-- The strip-and-collapse pass leaves no two consecutive spaces. -/
theorem stripCollapse_noDouble (l : List Char) :
    hasDoubleSpace (stripCollapse l) = false :=
  collapseGo_noDouble (pyStrip l) false

/-- The strip-and-collapse pass leaves no leading whitespace. -/
theorem stripCollapse_head (l : List Char) :
    ((stripCollapse l).head?.all fun c => !(isPySpace c)) = true := by
  rw [stripCollapse, collapseWs]
  cases hps : pyStrip l with
  | nil => rfl
  | cons c r =>
    have hc : isPySpace c = false := pyStrip_head l c (by rw [hps]; rfl)
    rw [collapseGo, if_neg (by simp [hc])]
    simp [hc]

/-- The strip-and-collapse pass leaves no trailing whitespace. -/
theorem stripCollapse_last (l : List Char) :
    ((stripCollapse l).getLast?.all fun c => !(isPySpace c)) = true := by
  rw [stripCollapse, collapseWs]
  cases hcg : (collapseGo false (pyStrip l)).getLast? with
  | none => rfl
  | some x =>
    have hx := collapseGo_last (pyStrip l) false (pyStrip_last l) x hcg
    simp [hx]

/-- C8: the detokenizer's output never contains two consecutive space
characters and never starts or ends with a whitespace character (its final
pass strips the string and collapses every whitespace run to one space);
the string-level detokenizer is exactly the character-level one. -/
theorem untokenize_whitespace_normal (ts : List (List Char)) :
    hasDoubleSpace (untokenizeChars ts) = false ∧
    ((untokenizeChars ts).head?.all fun c => !(isPySpace c)) = true ∧
    ((untokenizeChars ts).getLast?.all fun c => !(isPySpace c)) = true ∧
    ∀ ts' : List String,
      untokenize ts' = String.mk (untokenizeChars (ts'.map String.data)) := by
  obtain ⟨u, hu⟩ : ∃ u, untokenizeChars ts = stripCollapse u := ⟨_, rfl⟩
  rw [hu]
  exact ⟨stripCollapse_noDouble _, stripCollapse_head _, stripCollapse_last _,
    fun _ => rfl⟩

/-- The pruning loop only ever appends to its accumulator, and the appended
part is a subsequence of the remaining input. -/
theorem pruneLoop_sublist (minL maxL : Nat) (rc rr : Bool) :
    ∀ (rest pruned r : List Sentence),
      pruneLoop minL maxL rc rr pruned rest = some r →
      ∃ q, r = pruned ++ q ∧ q.Sublist rest := by
  intro rest
  induction rest with
  | nil =>
    intro pruned r h
    rw [pruneLoop] at h
    obtain rfl : pruned = r := by simpa using h
    exact ⟨[], by simp, List.Sublist.refl _⟩
  | cons s rest ih =>
    intro pruned r h
    rw [pruneLoop] at h
    split at h
    · obtain ⟨q, hq, hs⟩ := ih _ _ h
      exact ⟨q, hq, hs.cons _⟩
    split at h
    · obtain ⟨q, hq, hs⟩ := ih _ _ h
      exact ⟨q, hq, hs.cons _⟩
    split at h
    · split at h
      · obtain ⟨q, hq, hs⟩ := ih _ _ h
        exact ⟨q, hq, hs.cons _⟩
      split at h
      · obtain ⟨q, hq, hs⟩ := ih _ _ h
        exact ⟨q, hq, hs.cons _⟩
      · obtain ⟨q, hq, hs⟩ := ih _ _ h
        exact ⟨s :: q, by simp [hq], hs.cons₂ _⟩
    · exact absurd h (by simp)

/-- C9: the output of `prune_sentences` is a subsequence of its input: the
survivors are input sentences kept in their original relative order (and
being the very same `Sentence` values, none of them is mutated). -/
theorem prune_sublist (ss : List Sentence) (minL maxL : Nat) (rc rr : Bool)
    (r : List Sentence) (h : prune_sentences ss minL maxL rc rr = some r) :
    r.Sublist ss := by
  obtain ⟨q, hq, hs⟩ := pruneLoop_sublist minL maxL rc rr ss [] r h
  rw [hq]
  simpa using hs

/-- C9 witness: the sublist property at a concrete pruning run. -/
theorem prune_sublist_witness :
    prune_sentences [sLen2, sLen10, sLen40] 5 30 true true = some [sLen10] ∧
    List.Sublist [sLen10] [sLen2, sLen10, sLen40] :=
  ⟨rfl, prune_sublist [sLen2, sLen10, sLen40] 5 30 true true [sLen10] rfl⟩

/-- If every remaining sentence has a non-empty token list, the pruning
loop cannot fail. -/
theorem pruneLoop_total (minL maxL : Nat) (rc rr : Bool) :
    ∀ (rest pruned : List Sentence), (∀ s ∈ rest, s.tokens ≠ []) →
      ∃ r, pruneLoop minL maxL rc rr pruned rest = some r := by
  intro rest
  induction rest with
  | nil => intro pruned _; exact ⟨pruned, rfl⟩
  | cons s rest ih =>
    intro pruned hne
    have hs : s.tokens ≠ [] := hne s (List.mem_cons_self _ _)
    have hrest : ∀ t ∈ rest, t.tokens ≠ [] :=
      fun t ht => hne t (List.mem_cons_of_mem _ ht)
    rw [pruneLoop]
    split
    · exact ih pruned hrest
    split
    · exact ih pruned hrest
    cases hh : s.tokens.head? with
    | none => exact absurd (List.head?_eq_none_iff.mp hh) hs
    | some ft =>
      cases hl : s.tokens.getLast? with
      | none => exact absurd (List.getLast?_eq_none_iff.mp hl) hs
      | some lt =>
        simp only
        split
        · exact ih pruned hrest
        split
        · exact ih pruned hrest
        · exact ih (pruned ++ [s]) hrest

/-- C5: `prune_sentences` reads the first and last token of every sentence
that passes the two length checks, whatever the flags are; under the
precondition that every sentence has a non-empty token list the call never
fails, and on a sentence with an empty token list that passes the length
checks it fails (raises `IndexError`, modelled as `none`) even with both
flags disabled. -/
theorem prune_tokens_indexing (ss : List Sentence) (minL maxL : Nat)
    (rc rr : Bool) (h : ∀ s ∈ ss, s.tokens ≠ []) :
    (∃ r, prune_sentences ss minL maxL rc rr = some r) ∧
    prune_sentences [sNoTokens] 0 100 false false = none :=
  ⟨pruneLoop_total minL maxL rc rr ss [] h, rfl⟩

/-- C5 witness: totality at a concrete corpus with non-empty token lists,
and the failure at the concrete empty-token sentence. -/
theorem prune_tokens_indexing_witness :
    (∀ s ∈ [sLen10], s.tokens ≠ []) ∧
    ((∃ r, prune_sentences [sLen10] 5 30 true true = some r) ∧
     prune_sentences [sNoTokens] 0 100 false false = none) :=
  ⟨by decide, prune_tokens_indexing [sLen10] 5 30 true true (by decide)⟩

/-- With citation and redundancy removal disabled the pruning loop keeps
exactly the sentences whose length lies within the two bounds. -/
theorem pruneLoop_length_filter (minL maxL : Nat) :
    ∀ (rest pruned : List Sentence), (∀ s ∈ rest, s.tokens ≠ []) →
      pruneLoop minL maxL false false pruned rest =
        some (pruned ++ rest.filter
          (fun s => decide (minL ≤ s.length) && decide (s.length ≤ maxL))) := by
  intro rest
  induction rest with
  | nil => intro pruned _; simp [pruneLoop]
  | cons s rest ih =>
    intro pruned hne
    have hs : s.tokens ≠ [] := hne s (List.mem_cons_self _ _)
    have hrest : ∀ t ∈ rest, t.tokens ≠ [] :=
      fun t ht => hne t (List.mem_cons_of_mem _ ht)
    rw [pruneLoop]
    by_cases h1 : s.length < minL
    · rw [if_pos h1, ih pruned hrest]
      have hp : ¬ minL ≤ s.length := by omega
      simp [List.filter_cons, hp]
    · rw [if_neg h1]
      by_cases h2 : s.length > maxL
      · rw [if_pos h2, ih pruned hrest]
        have hp : ¬ s.length ≤ maxL := by omega
        simp [List.filter_cons, hp]
      · rw [if_neg h2]
        cases hh : s.tokens.head? with
        | none => exact absurd (List.head?_eq_none_iff.mp hh) hs
        | some ft =>
          cases hl : s.tokens.getLast? with
          | none => exact absurd (List.getLast?_eq_none_iff.mp hl) hs
          | some lt =>
            simp only
            rw [if_neg (by simp), if_neg (by simp), ih (pruned ++ [s]) hrest]
            have hp1 : minL ≤ s.length := by omega
            have hp2 : s.length ≤ maxL := by omega
            simp [List.filter_cons, hp1, hp2]

/-- C7: with only the length checks enabled, `prune_sentences` drops a
sentence exactly when its length is strictly below the minimum or strictly
above the maximum (boundary lengths pass); with lengths 2, 10, 40 and
bounds 5 and 30 only the length-10 sentence survives. -/
theorem prune_length_checks (ss : List Sentence) (minL maxL : Nat)
    (h : ∀ s ∈ ss, s.tokens ≠ []) :
    prune_sentences ss minL maxL false false =
      some (ss.filter
        (fun s => decide (minL ≤ s.length) && decide (s.length ≤ maxL))) ∧
    prune_sentences [sLen2, sLen10, sLen40] 5 30 true true = some [sLen10] := by
  refine ⟨?_, rfl⟩
  rw [prune_sentences, pruneLoop_length_filter minL maxL ss [] h]
  simp

/-- C7 witness: the filter characterisation and the concrete 2/10/40
example with bounds 5 and 30. -/
theorem prune_length_checks_witness :
    (∀ s ∈ [sLen2, sLen10, sLen40], s.tokens ≠ []) ∧
    (prune_sentences [sLen2, sLen10, sLen40] 5 30 false false =
       some ([sLen2, sLen10, sLen40].filter
         (fun s => decide (5 ≤ s.length) && decide (s.length ≤ 30))) ∧
     prune_sentences [sLen2, sLen10, sLen40] 5 30 true true = some [sLen10]) :=
  ⟨by decide, prune_length_checks [sLen2, sLen10, sLen40] 5 30 (by decide)⟩

/-- C4: with redundancy removal enabled, a sentence that passed the length
checks and the citation check is dropped exactly when its token sequence
equals the token sequence of a sentence already accepted into the output of
this call (the accumulator), and otherwise appended; of two sentences with
identical tokens but different `doc_id`/`position` only the first survives
when the flag is on, and both survive when it is off. -/
theorem prune_redundancy_spec (pruned rest : List Sentence) (s : Sentence)
    (minL maxL : Nat) (rc : Bool) (ft lt : String)
    (h1 : ¬ s.length < minL) (h2 : ¬ s.length > maxL)
    (hft : s.tokens.head? = some ft) (hlt : s.tokens.getLast? = some lt)
    (hcit : (rc && (ft == openTicksS || ft == dqS)
                && (lt == closeTicksS || ft == dqS)) = false) :
    pruneLoop minL maxL rc true pruned (s :: rest) =
      (if ∃ p ∈ pruned, p.tokens = s.tokens
       then pruneLoop minL maxL rc true pruned rest
       else pruneLoop minL maxL rc true (pruned ++ [s]) rest) ∧
    prune_sentences [sDupA, sDupB] 0 100 false true = some [sDupA] ∧
    prune_sentences [sDupA, sDupB] 0 100 false false =
      some [sDupA, sDupB] := by
  refine ⟨?_, rfl, rfl⟩
  rw [pruneLoop, if_neg h1, if_neg h2, hft, hlt]
  simp only
  rw [if_neg (by rw [hcit]; simp)]
  by_cases hex : ∃ p ∈ pruned, p.tokens = s.tokens
  · rw [if_pos hex]
    have hany : pruned.any (fun p => p.tokens == s.tokens) = true := by
      rw [List.any_eq_true]
      obtain ⟨p, hp, he⟩ := hex
      exact ⟨p, hp, by simp [he]⟩
    rw [if_pos (by simp [hany])]
  · rw [if_neg hex]
    have hany : pruned.any (fun p => p.tokens == s.tokens) = false := by
      rw [Bool.eq_false_iff]
      intro hc
      rw [List.any_eq_true] at hc
      obtain ⟨p, hp, he⟩ := hc
      exact hex ⟨p, hp, by simpa using he⟩
    rw [if_neg (by simp [hany])]

/-- C4 witness: the redundancy step applied with the accumulator holding a
sentence with the same tokens, plus the concrete two-sentence examples. -/
theorem prune_redundancy_spec_witness :
    (¬ sDupB.length < 0) ∧ (¬ sDupB.length > 100) ∧
    (pruneLoop 0 100 false true [sDupA] [sDupB] =
       (if ∃ p ∈ [sDupA], p.tokens = sDupB.tokens
        then pruneLoop 0 100 false true [sDupA] []
        else pruneLoop 0 100 false true ([sDupA] ++ [sDupB]) []) ∧
     prune_sentences [sDupA, sDupB] 0 100 false true = some [sDupA] ∧
     prune_sentences [sDupA, sDupB] 0 100 false false =
       some [sDupA, sDupB]) :=
  ⟨by decide, by decide,
   prune_redundancy_spec [sDupA] [] sDupB 0 100 false "a" "e"
     (by decide) (by decide) rfl rfl (by decide)⟩
